import Mathlib

/-!
Verification development for `name_to_free_port.py`, a CLI that maps a name
deterministically to a free TCP port.

The embedding models:
* `SHA256.sha256` — the SHA-256 hash used by `_hash_to_port` (`hashlib.sha256`),
  over byte lists (`List Nat`, each element `< 256`).
* `utf8Bytes`, `decBytes`, `hashInput` — the byte encoding
  `f"{name}\x7b0}{salt}".encode("utf-8")` of the hash input (UTF-8 of the name,
  then a NUL byte, then the ASCII decimal digits of the salt).
* `hash_to_port` — the derivation `_hash_to_port` including its range check.
* `searchAux` / `find_free_port_for_name` — the retry loop, parametric in the
  availability checker `free` (embedding `_is_port_free`) and the listener
  description `describe`; the returned `SearchTrace` records the diagnostics
  emitted to stderr, the number of successful derivations, the number of
  availability checks, and the result (success or raised exception).
* `main_model` — the portion of `main` relevant to the stdout/exit-status
  contract.
* `listener_via_psutil`, `listener_via_os_tools`, `describe_listener` — the
  listener inspector, over explicit environments whose fallible operations
  return `Except`; the Python `try`/`except` blocks become `match`es on those
  `Except` values, so a code path on which an exception would escape shows up
  as an `Except.error` result.
-/

namespace NameToFreePort

/-! ## SHA-256 over byte lists -/

namespace SHA256

/-- Truncation to a 32-bit word. -/
def w32 (n : Nat) : Nat := n % 4294967296

/-- Right rotation of a 32-bit word. -/
def rotr (x b : Nat) : Nat := w32 ((x >>> b) ||| (x <<< (32 - b)))

/-- Round constants (FIPS 180-4), written in decimal. -/
def K : List Nat :=
  [1116352408, 1899447441, 3049323471, 3921009573, 961987163, 1508970993,
   2453635748, 2870763221, 3624381080, 310598401, 607225278, 1426881987,
   1925078388, 2162078206, 2614888103, 3248222580, 3835390401, 4022224774,
   264347078, 604807628, 770255983, 1249150122, 1555081692, 1996064986,
   2554220882, 2821834349, 2952996808, 3210313671, 3336571891, 3584528711,
   113926993, 338241895, 666307205, 773529912, 1294757372, 1396182291,
   1695183700, 1986661051, 2177026350, 2456956037, 2730485921, 2820302411,
   3259730800, 3345764771, 3516065817, 3600352804, 4094571909, 275423344,
   430227734, 506948616, 659060556, 883997877, 958139571, 1322822218,
   1537002063, 1747873779, 1955562222, 2024104815, 2227730452, 2361852424,
   2428436474, 2756734187, 3204031479, 3329325298]

/-- Initial hash value (FIPS 180-4), written in decimal. -/
def H0 : List Nat :=
  [1779033703, 3144134277, 1013904242, 2773480762,
   1359893119, 2600822924, 528734635, 1541459225]

/-- Big-endian 8-byte encoding of the bit length, for padding. -/
def lenBytes (n : Nat) : List Nat :=
  [n / 72057594037927936 % 256, n / 281474976710656 % 256, n / 1099511627776 % 256,
   n / 4294967296 % 256, n / 16777216 % 256, n / 65536 % 256, n / 256 % 256, n % 256]

/-- Pad a message to a multiple of 64 bytes: append `0x80`, zero bytes, then
the 64-bit big-endian bit length. -/
def pad (msg : List Nat) : List Nat :=
  msg ++ 0x80 :: List.replicate ((119 - msg.length % 64) % 64) 0 ++ lenBytes (8 * msg.length)

/-- Split a byte list into 64-byte chunks. -/
def chunk64 (l : List Nat) : List (List Nat) :=
  if h : l = [] then []
  else l.take 64 :: chunk64 (l.drop 64)
termination_by l.length
decreasing_by
  rw [List.length_drop]
  have : 0 < l.length := List.length_pos.mpr h
  omega

/-- Group bytes into big-endian 32-bit words. -/
def bytesToWords : List Nat → List Nat
  | b0 :: b1 :: b2 :: b3 :: rest => (((b0 * 256 + b1) * 256 + b2) * 256 + b3) :: bytesToWords rest
  | _ => []

/-- Extend the 16 words of a block to the 64-entry message schedule. -/
def schedule (ws : List Nat) : Array Nat :=
  (List.range 48).foldl
    (fun w _ =>
      let i := w.size
      let x15 := w.getD (i - 15) 0
      let x2 := w.getD (i - 2) 0
      let s0 := (rotr x15 7) ^^^ (rotr x15 18) ^^^ (x15 >>> 3)
      let s1 := (rotr x2 17) ^^^ (rotr x2 19) ^^^ (x2 >>> 10)
      w.push (w32 (w.getD (i - 16) 0 + s0 + w.getD (i - 7) 0 + s1)))
    ws.toArray

/-- Compression of one block schedule into the running hash (8 words). -/
def compress (h : List Nat) (w : Array Nat) : List Nat :=
  let a0 := h.getD 0 0
  let a1 := h.getD 1 0
  let a2 := h.getD 2 0
  let a3 := h.getD 3 0
  let a4 := h.getD 4 0
  let a5 := h.getD 5 0
  let a6 := h.getD 6 0
  let a7 := h.getD 7 0
  let step := fun (st : Nat × Nat × Nat × Nat × Nat × Nat × Nat × Nat) (kw : Nat × Nat) =>
    let (a, b, c, d, e, f, g, hh) := st
    let (k, wi) := kw
    let s1 := (rotr e 6) ^^^ (rotr e 11) ^^^ (rotr e 25)
    let ch := (e &&& f) ^^^ ((e ^^^ 4294967295) &&& g)
    let t1 := w32 (hh + s1 + ch + k + wi)
    let s0 := (rotr a 2) ^^^ (rotr a 13) ^^^ (rotr a 22)
    let mj := (a &&& b) ^^^ (a &&& c) ^^^ (b &&& c)
    let t2 := w32 (s0 + mj)
    (w32 (t1 + t2), a, b, c, w32 (d + t1), e, f, g)
  let fin := (K.zip w.toList).foldl step (a0, a1, a2, a3, a4, a5, a6, a7)
  [w32 (a0 + fin.1), w32 (a1 + fin.2.1), w32 (a2 + fin.2.2.1), w32 (a3 + fin.2.2.2.1),
   w32 (a4 + fin.2.2.2.2.1), w32 (a5 + fin.2.2.2.2.2.1), w32 (a6 + fin.2.2.2.2.2.2.1),
   w32 (a7 + fin.2.2.2.2.2.2.2)]

/-- Big-endian bytes of a 32-bit word. -/
def wordBytes (x : Nat) : List Nat :=
  [x / 16777216 % 256, x / 65536 % 256, x / 256 % 256, x % 256]

/-- SHA-256 digest (32 bytes) of a byte list. -/
def sha256 (msg : List Nat) : List Nat :=
  ((chunk64 (pad msg)).foldl
      (fun h block => compress h (schedule (bytesToWords block))) H0).flatMap
    wordBytes

end SHA256

/-! ## Byte encodings of the hash input -/

/-- UTF-8 encoding of a Unicode scalar value, as byte values. -/
def utf8Char (n : Nat) : List Nat :=
  if n < 128 then [n]
  else if n < 2048 then [192 + n / 64, 128 + n % 64]
  else if n < 65536 then [224 + n / 4096, 128 + n / 64 % 64, 128 + n % 64]
  else [240 + n / 262144, 128 + n / 4096 % 64, 128 + n / 64 % 64, 128 + n % 64]

/-- UTF-8 encoding of a string (Python `str.encode("utf-8")`), as byte values. -/
def utf8Bytes (s : String) : List Nat :=
  s.data.flatMap (fun c => utf8Char c.toNat)

/-- Little-endian decimal digits of a positive number (empty for 0). -/
def decDigitsAux (n : Nat) : List Nat :=
  if h : n = 0 then []
  else n % 10 :: decDigitsAux (n / 10)
termination_by n
decreasing_by
  exact Nat.div_lt_self (Nat.pos_of_ne_zero h) (by omega)

/-- ASCII bytes of the decimal representation of a natural number
(Python `str(salt)` under UTF-8). -/
def decBytes (n : Nat) : List Nat :=
  if n = 0 then [48] else ((decDigitsAux n).reverse).map (· + 48)

/-- Bytes hashed by `_hash_to_port`: `f"{name}\x7b0}{salt}".encode("utf-8")`,
i.e. the UTF-8 name, a NUL separator byte, and the ASCII decimal salt. -/
def hashInput (name : String) (salt : Nat) : List Nat :=
  utf8Bytes name ++ 0 :: decBytes salt

/-- Big-endian interpretation of a byte list as an unsigned integer
(Python `int.from_bytes(bs, "big", signed=False)`). -/
def int_from_bytes_be (bs : List Nat) : Nat :=
  bs.foldl (fun acc b => acc * 256 + b) 0

/-! ## Port derivation (`_hash_to_port`) -/

/-- Message of the `ValueError` raised by `_hash_to_port`. -/
def invalidRangeMsg : String :=
  "Invalid port range. Must satisfy 1 <= min_port < max_port <= 65535."

/-- Value computed by `_hash_to_port` once the range check has passed:
`min_port + (n % span)` for `n` the first 8 digest bytes read big-endian and
`span = (max_port - min_port) + 1`. -/
def hash_val (name : String) (salt : Nat) (min_port max_port : Int) : Int :=
  min_port +
    Int.ofNat (int_from_bytes_be ((SHA256.sha256 (hashInput name salt)).take 8)) %
      ((max_port - min_port) + 1)

/-- Embedding of `_hash_to_port`: validate the range (raising `ValueError`,
modelled as `Except.error`, on violation), then hash and reduce. -/
def hash_to_port (name : String) (salt : Nat) (min_port max_port : Int) :
    Except String Int :=
  if min_port < 1 ∨ max_port > 65535 ∨ min_port ≥ max_port then
    .error invalidRangeMsg
  else
    .ok (hash_val name salt min_port max_port)

/-- Range invariant demanded by `_hash_to_port`. -/
def validRange (min_port max_port : Int) : Prop :=
  1 ≤ min_port ∧ min_port < max_port ∧ max_port ≤ 65535

instance (min_port max_port : Int) : Decidable (validRange min_port max_port) :=
  inferInstanceAs (Decidable (_ ∧ _ ∧ _))

/-! ## The search loop (`find_free_port_for_name`) and `main` -/

/-- Exceptions that can escape `find_free_port_for_name`: the `ValueError`
from `_hash_to_port`, or the `RuntimeError` raised after the attempt budget
is exhausted (whose message interpolates the name and `max_attempts`). -/
inductive SearchError where
  | invalidRange (msg : String)
  | exhausted (name : String) (max_attempts : Int)
deriving DecidableEq, Repr

/-- Diagnostic printed to stderr for one busy port: the name, the salt, the
derived port, and the listener description from `describe_listener`. -/
structure Diag where
  name : String
  salt : Nat
  port : Int
  listener : String
deriving DecidableEq, Repr

/-- Observable trace of one run of `find_free_port_for_name`: the stderr
diagnostics in order, the number of successful `_hash_to_port` calls, the
number of `_is_port_free` calls, and the outcome. -/
structure SearchTrace where
  diags : List Diag
  hashCalls : Nat
  checkCalls : Nat
  result : Except SearchError (Int × Nat)
deriving Repr

/-- Loop body of `find_free_port_for_name`: iterate salts starting at `salt`
with `remaining` iterations left (so the Python loop `for salt in
range(max_attempts)` is `searchAux ... 0 max_attempts.toNat`). The
availability checker `free` embeds `_is_port_free host ·` and `describe`
embeds `describe_listener · |>.text`. -/
def searchAux (name : String) (free : Int → Bool) (describe : Int → String)
    (min_port max_port max_attempts : Int) (salt remaining : Nat) : SearchTrace :=
  match remaining with
  | 0 => ⟨[], 0, 0, .error (.exhausted name max_attempts)⟩
  | r + 1 =>
    match hash_to_port name salt min_port max_port with
    | .error msg => ⟨[], 0, 0, .error (.invalidRange msg)⟩
    | .ok port =>
      if free port then ⟨[], 1, 1, .ok (port, salt)⟩
      else
        let t := searchAux name free describe min_port max_port max_attempts (salt + 1) r
        ⟨⟨name, salt, port, describe port⟩ :: t.diags, t.hashCalls + 1, t.checkCalls + 1,
         t.result⟩

/-- Embedding of `find_free_port_for_name`. -/
def find_free_port_for_name (name : String) (free : Int → Bool) (describe : Int → String)
    (min_port max_port max_attempts : Int) : SearchTrace :=
  searchAux name free describe min_port max_port max_attempts 0 max_attempts.toNat

/-- Observable outcome of `main` relevant to the stdout/exit contract. -/
structure MainOutcome where
  stdoutLines : List String
  diags : List Diag
  exitZero : Bool
deriving DecidableEq, Repr

/-- Embedding of the port-printing part of `main`: run the search; on success
print exactly the port on stdout and return 0; an uncaught exception prints
nothing on stdout and the process exits non-zero. Clipboard handling only
writes to stderr and cannot change the exit status. -/
def main_model (name : String) (free : Int → Bool) (describe : Int → String)
    (min_port max_port max_attempts : Int) : MainOutcome :=
  let t := find_free_port_for_name name free describe min_port max_port max_attempts
  match t.result with
  | .ok (port, _salt) => ⟨[toString port], t.diags, true⟩
  | .error _ => ⟨[], t.diags, false⟩

/-! ## Listener inspection (`describe_listener` and helpers)

The external world (psutil, `subprocess.run`, the platform) is an explicit
environment; each operation that can raise in Python is `Except`-valued, and
the `try`/`except` blocks of the source appear as `match`es on those values. -/

/-- Report on what occupies a busy port (`ListenerInfo`). -/
structure ListenerInfo where
  text : String
deriving DecidableEq, Repr

/-- Exceptions from `subprocess.run`, as caught by `_run_cmd`. -/
inductive SubprocessError where
  | fileNotFound
  | other (msg : String)
deriving DecidableEq, Repr

/-- One entry of `psutil.net_connections`. Fields that the source reads inside
a `try` are `Except`-valued; an `error` value models the read raising. -/
structure Conn where
  laddrPort : Except String Nat
  connStatus : String
  pid : Option Nat
  laddrIp : Except String String

/-- Capabilities of the psutil collaborator: availability of the module,
the outcome of `net_connections(kind="inet")`, and process lookup
(`Process(pid)` followed by `name()` and `exe()`), which can raise. -/
structure PsutilEnv where
  available : Bool
  netConnections : Except String (List Conn)
  procInfo : Nat → Except String (String × String)

/-- Capabilities of the OS collaborator: the (lower-cased) `platform.system()`
and `subprocess.run` on a command line, returning return code and combined
output unless it raises. -/
structure OsEnv where
  system : String
  run : List String → Except SubprocessError (Int × String)

/-- Embedding of `_run_cmd`: run the command, strip the output; a
`FileNotFoundError` becomes `(127, ...)` and any other exception `(1, ...)`. -/
def runCommand (env : OsEnv) (cmd : List String) : Int × String :=
  match env.run cmd with
  | .ok (rc, out) => (rc, out.trim)
  | .error .fileNotFound => (127, "(command not found: " ++ cmd.headD "" ++ ")")
  | .error (.other e) => (1, s!"(failed to run {cmd}: {e})")

/-- Line contributed by one connection in the `_listener_via_psutil` loop, or
`none` when the loop `continue`s (port read raised, wrong port, or not in
LISTEN state). -/
def conn_line (env : PsutilEnv) (port : Int) (c : Conn) : Option String :=
  match c.laddrPort with
  | .error _ => none
  | .ok lport =>
    if (lport : Int) ≠ port then none
    else if c.connStatus.toUpper ≠ "LISTEN" then none
    else
      let procDesc :=
        match c.pid with
        | none => "pid=?"
        | some p =>
          if p = 0 then "pid=?"
          else
            match env.procInfo p with
            | .ok (nm, exe) => s!"pid={p} name={nm} exe={exe}"
            | .error _ => s!"pid={p}"
      let lip := match c.laddrIp with | .ok ip => ip | .error _ => ""
      some (s!"{lip}:{port} {procDesc}")

/-- Embedding of `_listener_via_psutil`. `none` means psutil is unavailable
(the Python function returns `None`); an `Except.error` result would mean an
exception escapes. -/
def listener_via_psutil (env : PsutilEnv) (port : Int) :
    Except String (Option ListenerInfo) :=
  if env.available = false then .ok none
  else
    match env.netConnections with
    | .error e => .ok (some ⟨s!"(psutil present, but net_connections failed: {e})"⟩)
    | .ok conns =>
      let listeners := conns.filterMap (conn_line env port)
      if listeners.isEmpty then
        .ok (some ⟨"(No LISTEN socket found via psutil; insufficient permissions or different socket type.)"⟩)
      else
        .ok (some ⟨String.intercalate "\n" listeners⟩)

/-- Embedding of `_listener_via_os_tools`. -/
def listener_via_os_tools (env : OsEnv) (port : Int) : Except String ListenerInfo :=
  if env.system = "darwin" ∨ env.system = "linux" then
    let r1 := runCommand env ["lsof", "-nP", s!"-iTCP:{port}", "-sTCP:LISTEN"]
    if r1.1 = 0 ∧ r1.2 ≠ "" then .ok ⟨r1.2⟩
    else if env.system = "linux" then
      let r2 := runCommand env ["ss", "-ltnp", s!"sport = :{port}"]
      if r2.2 ≠ "" then .ok ⟨r2.2⟩
      else .ok ⟨if r1.2 ≠ "" then r1.2
                else "(could not determine listener; try installing psutil or lsof)"⟩
    else .ok ⟨if r1.2 ≠ "" then r1.2
              else "(could not determine listener; try installing psutil or lsof)"⟩
  else if env.system = "windows" then
    let r := runCommand env ["cmd.exe", "/c", s!"netstat -ano | findstr /R /C:\":{port} \""]
    .ok ⟨if r.2 ≠ "" then r.2 else "(could not determine listener; try installing psutil)"⟩
  else .ok ⟨"(unsupported OS tools for listener detection; try installing psutil)"⟩

/-- Embedding of `describe_listener`: psutil first, OS tools as fallback. An
`Except.error` of either helper would propagate to the caller. -/
def describe_listener (penv : PsutilEnv) (oenv : OsEnv) (port : Int) :
    Except String ListenerInfo :=
  match listener_via_psutil penv port with
  | .error e => .error e
  | .ok (some info) => .ok info
  | .ok none => listener_via_os_tools oenv port

/-! ## Auxiliary definitions used only in statements and proofs -/

/-- Positional big-endian value of a byte list, following the specification's
words: each byte weighted by 256 to the power of its distance from the end. -/
def spec_first8_be : List Nat → Nat
  | [] => 0
  | b :: t => b * 256 ^ t.length + spec_first8_be t

/-- Diagnostic emitted for salt `k` when its derived port is busy. -/
def busyDiag (name : String) (describe : Int → String) (min_port max_port : Int)
    (k : Nat) : Diag :=
  ⟨name, k, hash_val name k min_port max_port,
   describe (hash_val name k min_port max_port)⟩

/-- Numeric value of a little-endian decimal digit list (proof helper). -/
def decVal (l : List Nat) : Nat := l.foldr (fun d acc => d + 10 * acc) 0

/-! ## Basic lemmas about the derivation -/

theorem hash_to_port_ok (name : String) (salt : Nat) (min_port max_port : Int)
    (h : validRange min_port max_port) :
    hash_to_port name salt min_port max_port = .ok (hash_val name salt min_port max_port) := by
  obtain ⟨h1, h2, h3⟩ := h
  unfold hash_to_port
  rw [if_neg (by omega)]

theorem hash_to_port_raises (name : String) (salt : Nat) (min_port max_port : Int)
    (h : min_port < 1 ∨ max_port > 65535 ∨ min_port ≥ max_port) :
    hash_to_port name salt min_port max_port = .error invalidRangeMsg := by
  unfold hash_to_port
  rw [if_pos h]

theorem hash_val_bounds (name : String) (salt : Nat) (min_port max_port : Int)
    (h : validRange min_port max_port) :
    min_port ≤ hash_val name salt min_port max_port ∧
      hash_val name salt min_port max_port ≤ max_port := by
  obtain ⟨h1, h2, h3⟩ := h
  unfold hash_val
  have hspan : (0 : Int) < (max_port - min_port) + 1 := by omega
  have hm1 :
      0 ≤ (Int.ofNat (int_from_bytes_be ((SHA256.sha256 (hashInput name salt)).take 8))) %
        ((max_port - min_port) + 1) :=
    Int.emod_nonneg _ (by omega)
  have hm2 :
      (Int.ofNat (int_from_bytes_be ((SHA256.sha256 (hashInput name salt)).take 8))) %
        ((max_port - min_port) + 1) < (max_port - min_port) + 1 :=
    Int.emod_lt_of_pos _ hspan
  omega

theorem foldl_be (l : List Nat) (acc : Nat) :
    l.foldl (fun a b => a * 256 + b) acc = acc * 256 ^ l.length + spec_first8_be l := by
  induction l generalizing acc with
  | nil => simp [spec_first8_be]
  | cons b t ih =>
    simp only [List.foldl_cons, List.length_cons, spec_first8_be, ih]
    ring

theorem int_from_bytes_be_eq_spec (l : List Nat) : int_from_bytes_be l = spec_first8_be l := by
  simpa using foldl_be l 0

/-- C2: for every name, non-negative salt and valid range, `_hash_to_port`
computes exactly: UTF-8 encode the name, a NUL byte, and the decimal salt;
SHA-256 those bytes; read the first 8 digest bytes as a big-endian unsigned
integer `n`; return `min_port + (n mod (max_port - min_port + 1))`. -/
theorem derive_follows_spec_formula (name : String) (salt : Nat) (min_port max_port : Int)
    (h : validRange min_port max_port) :
    hash_to_port name salt min_port max_port =
      .ok (min_port +
        Int.ofNat
            (spec_first8_be ((SHA256.sha256 (utf8Bytes name ++ 0 :: decBytes salt)).take 8)) %
          ((max_port - min_port) + 1)) := by
  rw [hash_to_port_ok name salt min_port max_port h]
  unfold hash_val hashInput
  rw [int_from_bytes_be_eq_spec]

theorem derive_follows_spec_formula_witness :
    validRange 20000 45000 ∧
      hash_to_port "bento-pdf" 0 20000 45000 =
        .ok (20000 +
          Int.ofNat
              (spec_first8_be
                ((SHA256.sha256 (utf8Bytes "bento-pdf" ++ 0 :: decBytes 0)).take 8)) %
            ((45000 - 20000) + 1)) :=
  ⟨by decide, derive_follows_spec_formula "bento-pdf" 0 20000 45000 (by decide)⟩

/-- C3: for every valid input, `_hash_to_port` is deterministic — it returns a
unique port value, the same on every call with identical inputs — and that
port lies within `[min_port, max_port]` inclusive. -/
theorem derive_deterministic_in_range (name : String) (salt : Nat) (min_port max_port : Int)
    (h : validRange min_port max_port) :
    ∃ p : Int,
      hash_to_port name salt min_port max_port = .ok p ∧
        min_port ≤ p ∧ p ≤ max_port ∧
        ∀ q : Int, hash_to_port name salt min_port max_port = .ok q → q = p := by
  refine ⟨hash_val name salt min_port max_port, hash_to_port_ok name salt min_port max_port h,
    (hash_val_bounds name salt min_port max_port h).1,
    (hash_val_bounds name salt min_port max_port h).2, ?_⟩
  intro q hq
  rw [hash_to_port_ok name salt min_port max_port h] at hq
  exact (Except.ok.inj hq).symm

theorem derive_deterministic_in_range_witness :
    validRange 20000 45000 ∧
      ∃ p : Int,
        hash_to_port "bento-pdf" 7 20000 45000 = .ok p ∧
          20000 ≤ p ∧ p ≤ 45000 ∧
          ∀ q : Int, hash_to_port "bento-pdf" 7 20000 45000 = .ok q → q = p :=
  ⟨by decide, derive_deterministic_in_range "bento-pdf" 7 20000 45000 (by decide)⟩

/-- C4: `_hash_to_port` raises `ValueError` (InvalidRangeError) exactly when
`min_port ≥ max_port`, `min_port < 1` or `max_port > 65535`; on failure no
port is produced, and on a valid range some port is. -/
theorem derive_invalid_range_iff (name : String) (salt : Nat) (min_port max_port : Int) :
    (hash_to_port name salt min_port max_port = .error invalidRangeMsg ↔
      min_port ≥ max_port ∨ min_port < 1 ∨ max_port > 65535) ∧
      ((∃ p, hash_to_port name salt min_port max_port = .ok p) ↔
        validRange min_port max_port) := by
  by_cases hc : min_port < 1 ∨ max_port > 65535 ∨ min_port ≥ max_port
  · rw [hash_to_port_raises name salt min_port max_port hc]
    unfold validRange
    constructor
    · constructor
      · intro _; omega
      · intro _; rfl
    · constructor
      · rintro ⟨p, hp⟩; exact absurd hp (by simp)
      · intro hv; omega
  · have hv : validRange min_port max_port := by unfold validRange; omega
    rw [hash_to_port_ok name salt min_port max_port hv]
    constructor
    · constructor
      · intro he; exact absurd he (by simp)
      · intro hinv; omega
    · exact ⟨fun _ => hv, fun _ => ⟨hash_val name salt min_port max_port, rfl⟩⟩

theorem derive_invalid_range_iff_witness :
    (hash_to_port "svc" 0 100 100 = .error invalidRangeMsg ↔
      (100 : Int) ≥ 100 ∨ (100 : Int) < 1 ∨ (100 : Int) > 65535) ∧
      ((∃ p, hash_to_port "svc" 0 100 100 = .ok p) ↔ validRange 100 100) :=
  derive_invalid_range_iff "svc" 0 100 100

/-! ## Lemmas about the search loop -/

theorem searchAux_success (name : String) (free : Int → Bool) (describe : Int → String)
    (min_port max_port max_attempts : Int) (h : validRange min_port max_port) :
    ∀ remaining salt s : Nat, salt ≤ s → s < salt + remaining →
      (∀ k, salt ≤ k → k < s → free (hash_val name k min_port max_port) = false) →
      free (hash_val name s min_port max_port) = true →
      searchAux name free describe min_port max_port max_attempts salt remaining =
        ⟨(List.range' salt (s - salt)).map (busyDiag name describe min_port max_port),
         s - salt + 1, s - salt + 1,
         .ok (hash_val name s min_port max_port, s)⟩ := by
  intro remaining
  induction remaining with
  | zero => intro salt s h1 h2 _ _; omega
  | succ r ih =>
    intro salt s h1 h2 hbusy hfree
    simp only [searchAux, hash_to_port_ok name salt min_port max_port h]
    by_cases hs : salt = s
    · subst hs
      rw [hfree]
      simp
    · have hlt : salt < s := by omega
      rw [hbusy salt (Nat.le_refl salt) hlt]
      simp only [Bool.false_eq_true, if_false]
      rw [ih (salt + 1) s (by omega) (by omega)
        (fun k hk1 hk2 => hbusy k (by omega) hk2) hfree]
      have hms : s - salt = (s - (salt + 1)) + 1 := by omega
      rw [hms, List.range'_succ]
      simp only [List.map_cons, busyDiag]

theorem searchAux_exhaust (name : String) (free : Int → Bool) (describe : Int → String)
    (min_port max_port max_attempts : Int) (h : validRange min_port max_port) :
    ∀ remaining salt : Nat,
      (∀ k, salt ≤ k → k < salt + remaining → free (hash_val name k min_port max_port) = false) →
      searchAux name free describe min_port max_port max_attempts salt remaining =
        ⟨(List.range' salt remaining).map (busyDiag name describe min_port max_port),
         remaining, remaining,
         .error (.exhausted name max_attempts)⟩ := by
  intro remaining
  induction remaining with
  | zero => intro salt _; simp [searchAux]
  | succ r ih =>
    intro salt hbusy
    simp only [searchAux, hash_to_port_ok name salt min_port max_port h]
    rw [hbusy salt (Nat.le_refl salt) (by omega)]
    simp only [Bool.false_eq_true, if_false]
    rw [ih (salt + 1) (fun k hk1 hk2 => hbusy k (by omega) (by omega))]
    rw [List.range'_succ]
    simp only [List.map_cons, busyDiag]

/-- C1: over a valid range with positive attempt budget, if `s` is the least
salt below `max_attempts` whose derived port the checker reports free, the
search succeeds at `s`: it returns that derived port and salt `s`, uses
`s + 1` availability checks (so `attempts_used = s + 1`), and each salt
`k < s` produced exactly one busy-port diagnostic, in order, with no salt
retried. -/
theorem search_succeeds_at_least_salt (name : String) (free : Int → Bool)
    (describe : Int → String) (min_port max_port max_attempts : Int) (s : Nat)
    (h : validRange min_port max_port) (hs : s < max_attempts.toNat)
    (hbusy : ∀ k, k < s → free (hash_val name k min_port max_port) = false)
    (hfree : free (hash_val name s min_port max_port) = true) :
    find_free_port_for_name name free describe min_port max_port max_attempts =
      ⟨(List.range s).map (busyDiag name describe min_port max_port),
       s + 1, s + 1,
       .ok (hash_val name s min_port max_port, s)⟩ := by
  unfold find_free_port_for_name
  rw [searchAux_success name free describe min_port max_port max_attempts h
    max_attempts.toNat 0 s (Nat.zero_le s) (by omega)
    (fun k _ hk2 => hbusy k hk2) hfree]
  rw [List.range_eq_range']
  simp

theorem search_succeeds_at_least_salt_witness :
    validRange 20000 45000 ∧ 0 < (2000 : Int).toNat ∧
      find_free_port_for_name "bento-pdf" (fun _ => true) (fun _ => "") 20000 45000 2000 =
        ⟨(List.range 0).map (busyDiag "bento-pdf" (fun _ => "") 20000 45000),
         0 + 1, 0 + 1,
         .ok (hash_val "bento-pdf" 0 20000 45000, 0)⟩ :=
  ⟨by decide, by decide,
    search_succeeds_at_least_salt "bento-pdf" (fun _ => true) (fun _ => "") 20000 45000 2000 0
      (by decide) (by decide) (fun k hk => absurd hk (Nat.not_lt_zero k)) rfl⟩

/-- C5: over a valid range, if the checker reports every port derived at the
salts `0 ≤ k < max_attempts` busy, the search raises the `RuntimeError`
(ExhaustedError) carrying `max_attempts` after exactly `max_attempts`
availability checks, and `main` exits non-zero with nothing printed on
stdout. -/
theorem search_exhausts_and_exits_nonzero (name : String) (free : Int → Bool)
    (describe : Int → String) (min_port max_port max_attempts : Int)
    (h : validRange min_port max_port) (hM : 0 ≤ max_attempts)
    (hbusy : ∀ k, k < max_attempts.toNat → free (hash_val name k min_port max_port) = false) :
    find_free_port_for_name name free describe min_port max_port max_attempts =
      ⟨(List.range max_attempts.toNat).map (busyDiag name describe min_port max_port),
       max_attempts.toNat, max_attempts.toNat,
       .error (.exhausted name max_attempts)⟩ ∧
      (max_attempts.toNat : Int) = max_attempts ∧
      (main_model name free describe min_port max_port max_attempts).stdoutLines = [] ∧
      (main_model name free describe min_port max_port max_attempts).exitZero = false := by
  have hfind :
      find_free_port_for_name name free describe min_port max_port max_attempts =
        ⟨(List.range max_attempts.toNat).map (busyDiag name describe min_port max_port),
         max_attempts.toNat, max_attempts.toNat,
         .error (.exhausted name max_attempts)⟩ := by
    unfold find_free_port_for_name
    rw [searchAux_exhaust name free describe min_port max_port max_attempts h
      max_attempts.toNat 0 (fun k _ hk2 => hbusy k (by omega))]
    rw [List.range_eq_range']
  refine ⟨hfind, by omega, ?_, ?_⟩ <;>
    simp [main_model, hfind]

theorem search_exhausts_and_exits_nonzero_witness :
    validRange 20000 45000 ∧ (0 : Int) ≤ 3 ∧
      (find_free_port_for_name "svc" (fun _ => false) (fun _ => "") 20000 45000 3 =
        ⟨(List.range (3 : Int).toNat).map (busyDiag "svc" (fun _ => "") 20000 45000),
         (3 : Int).toNat, (3 : Int).toNat,
         .error (.exhausted "svc" 3)⟩ ∧
        ((3 : Int).toNat : Int) = 3 ∧
        (main_model "svc" (fun _ => false) (fun _ => "") 20000 45000 3).stdoutLines = [] ∧
        (main_model "svc" (fun _ => false) (fun _ => "") 20000 45000 3).exitZero = false) :=
  ⟨by decide, by decide,
    search_exhausts_and_exits_nonzero "svc" (fun _ => false) (fun _ => "") 20000 45000 3
      (by decide) (by decide) (fun k _ => rfl)⟩

/-- C6: over a valid range with at least one attempt allowed, if the checker
reports every port free, the search returns salt 0 and the port derived at
salt 0, after exactly one derivation and one availability check, with no
diagnostics. -/
theorem search_all_free_returns_salt_zero (name : String) (free : Int → Bool)
    (describe : Int → String) (min_port max_port max_attempts : Int)
    (h : validRange min_port max_port) (hM : 1 ≤ max_attempts)
    (hfree : ∀ p, free p = true) :
    find_free_port_for_name name free describe min_port max_port max_attempts =
      ⟨[], 1, 1, .ok (hash_val name 0 min_port max_port, 0)⟩ := by
  unfold find_free_port_for_name
  have h0 := searchAux_success name free describe min_port max_port max_attempts h
    max_attempts.toNat 0 0 (Nat.le_refl 0) (by omega)
    (fun k _ hk => absurd hk (Nat.not_lt_zero k)) (hfree _)
  simpa using h0

theorem search_all_free_returns_salt_zero_witness :
    validRange 20000 45000 ∧ (1 : Int) ≤ 2000 ∧
      find_free_port_for_name "bento-pdf" (fun _ => true) (fun _ => "") 20000 45000 2000 =
        ⟨[], 1, 1, .ok (hash_val "bento-pdf" 0 20000 45000, 0)⟩ :=
  ⟨by decide, by decide,
    search_all_free_returns_salt_zero "bento-pdf" (fun _ => true) (fun _ => "") 20000 45000 2000
      (by decide) (by decide) (fun _ => rfl)⟩

/-- C7: an invalid range (in particular `min_port = max_port`) makes the
search raise the range `ValueError` (InvalidRangeError) on its first
iteration, for any positive attempt budget, with zero availability checks and
zero listener inspections. -/
theorem search_invalid_range_checks_nothing (name : String) (free : Int → Bool)
    (describe : Int → String) (min_port max_port max_attempts : Int)
    (hinv : min_port ≥ max_port ∨ min_port < 1 ∨ max_port > 65535)
    (hM : 1 ≤ max_attempts) :
    find_free_port_for_name name free describe min_port max_port max_attempts =
      ⟨[], 0, 0, .error (.invalidRange invalidRangeMsg)⟩ := by
  unfold find_free_port_for_name
  have ht : max_attempts.toNat = (max_attempts.toNat - 1) + 1 := by omega
  rw [ht]
  simp only [searchAux, hash_to_port_raises name 0 min_port max_port (by omega)]

theorem search_invalid_range_checks_nothing_witness :
    ((100 : Int) ≥ 100 ∨ (100 : Int) < 1 ∨ (100 : Int) > 65535) ∧ (1 : Int) ≤ 2000 ∧
      find_free_port_for_name "svc" (fun _ => true) (fun _ => "") 100 100 2000 =
        ⟨[], 0, 0, .error (.invalidRange invalidRangeMsg)⟩ :=
  ⟨by decide, by decide,
    search_invalid_range_checks_nothing "svc" (fun _ => true) (fun _ => "") 100 100 2000
      (by decide) (by decide)⟩

/-- C10 counterexample: with `max_attempts = -1` the search does raise the
`RuntimeError` (ExhaustedError) immediately, but the error reports
`max_attempts = -1` attempts, not zero attempts as the claim states. -/
theorem search_nonpositive_attempts_cex :
    (find_free_port_for_name "a" (fun _ => true) (fun _ => "") 1 2 (-1)).result =
        .error (.exhausted "a" (-1)) ∧
      SearchError.exhausted "a" (-1) ≠ SearchError.exhausted "a" 0 :=
  ⟨rfl, by decide⟩

/-- C10 (amended): when `max_attempts ≤ 0`, the search raises ExhaustedError
immediately — reporting `max_attempts` attempts (zero exactly when
`max_attempts = 0`) — without deriving a port, validating the range, or
invoking the availability checker; in particular with an invalid range it
raises ExhaustedError, not InvalidRangeError. -/
theorem search_nonpositive_attempts (name : String) (free : Int → Bool)
    (describe : Int → String) (min_port max_port max_attempts : Int)
    (hM : max_attempts ≤ 0) :
    find_free_port_for_name name free describe min_port max_port max_attempts =
      ⟨[], 0, 0, .error (.exhausted name max_attempts)⟩ := by
  unfold find_free_port_for_name
  have ht : max_attempts.toNat = 0 := by omega
  rw [ht]
  rfl

theorem search_nonpositive_attempts_witness :
    (0 : Int) ≤ 0 ∧
      find_free_port_for_name "a" (fun _ => true) (fun _ => "") 100 100 0 =
        ⟨[], 0, 0, .error (.exhausted "a" 0)⟩ :=
  ⟨by decide,
    search_nonpositive_attempts "a" (fun _ => true) (fun _ => "") 100 100 0 (by decide)⟩

/-! ## Lemmas about the listener inspector -/

theorem listener_via_psutil_never_raises (env : PsutilEnv) (port : Int) :
    ∃ o, listener_via_psutil env port = .ok o := by
  unfold listener_via_psutil
  by_cases ha : env.available = false
  · rw [if_pos ha]
    exact ⟨none, rfl⟩
  · rw [if_neg ha]
    cases hnc : env.netConnections with
    | error e => exact ⟨_, rfl⟩
    | ok conns =>
      by_cases hl : (conns.filterMap (conn_line env port)).isEmpty
      · simp only [hl, if_true]
        exact ⟨_, rfl⟩
      · simp only [hl, if_false]
        exact ⟨_, rfl⟩

theorem listener_via_os_tools_never_raises (env : OsEnv) (port : Int) :
    ∃ info, listener_via_os_tools env port = .ok info := by
  unfold listener_via_os_tools
  by_cases h1 : env.system = "darwin" ∨ env.system = "linux"
  · rw [if_pos h1]
    by_cases h2 :
        (runCommand env ["lsof", "-nP", s!"-iTCP:{port}", "-sTCP:LISTEN"]).1 = 0 ∧
          (runCommand env ["lsof", "-nP", s!"-iTCP:{port}", "-sTCP:LISTEN"]).2 ≠ ""
    · rw [if_pos h2]
      exact ⟨_, rfl⟩
    · rw [if_neg h2]
      by_cases h3 : env.system = "linux"
      · rw [if_pos h3]
        by_cases h4 : (runCommand env ["ss", "-ltnp", s!"sport = :{port}"]).2 ≠ ""
        · rw [if_pos h4]
          exact ⟨_, rfl⟩
        · rw [if_neg h4]
          exact ⟨_, rfl⟩
      · rw [if_neg h3]
        exact ⟨_, rfl⟩
  · rw [if_neg h1]
    by_cases h5 : env.system = "windows"
    · rw [if_pos h5]
      exact ⟨_, rfl⟩
    · rw [if_neg h5]
      exact ⟨_, rfl⟩

/-- C8: for every environment (psutil present or absent, `net_connections`
succeeding or raising, process queries raising, commands missing, platform
unsupported) and every port, `describe_listener` returns a `ListenerInfo`
report — no exception propagates to its caller. -/
theorem describe_listener_never_raises (penv : PsutilEnv) (oenv : OsEnv) (port : Int) :
    ∃ t, describe_listener penv oenv port = .ok ⟨t⟩ := by
  unfold describe_listener
  obtain ⟨o, ho⟩ := listener_via_psutil_never_raises penv port
  rw [ho]
  cases o with
  | some info =>
    cases info with
    | mk t => exact ⟨t, rfl⟩
  | none =>
    obtain ⟨info, hi⟩ := listener_via_os_tools_never_raises oenv port
    cases info with
    | mk t => exact ⟨t, hi⟩

/-! ## Injectivity of the hash-input encoding -/

theorem char_toNat_lt (c : Char) : c.toNat < 1114112 := by
  have h := c.valid
  unfold UInt32.isValidChar at h
  unfold Nat.isValidChar at h
  show c.val.toNat < 1114112
  rcases h with h | ⟨h1, h2⟩ <;> omega

theorem utf8Char_ne_nil (n : Nat) : utf8Char n ≠ [] := by
  unfold utf8Char
  split_ifs <;> simp

theorem utf8Char_prefix {a b : Nat} (ha : a < 1114112) (hb : b < 1114112)
    {r s : List Nat} (heq : utf8Char a ++ r = utf8Char b ++ s) : a = b ∧ r = s := by
  unfold utf8Char at heq
  split_ifs at heq <;>
    simp only [List.cons_append, List.nil_append, List.cons.injEq] at heq <;>
    first
      | exact ⟨by omega, heq.2⟩
      | (obtain ⟨e1, e2, e3⟩ := heq; exact ⟨by omega, e3⟩)
      | (obtain ⟨e1, e2, e3, e4⟩ := heq; exact ⟨by omega, e4⟩)
      | (obtain ⟨e1, e2, e3, e4, e5⟩ := heq; exact ⟨by omega, e5⟩)
      | (exact absurd heq.1 (by omega))

theorem utf8_flatMap_inj : ∀ l1 l2 : List Char,
    l1.flatMap (fun c => utf8Char c.toNat) = l2.flatMap (fun c => utf8Char c.toNat) →
    l1 = l2 := by
  intro l1
  induction l1 with
  | nil =>
    intro l2 h
    cases l2 with
    | nil => rfl
    | cons c t =>
      simp only [List.flatMap_nil, List.flatMap_cons] at h
      exact absurd (List.append_eq_nil.mp h.symm).1 (utf8Char_ne_nil c.toNat)
  | cons c t ih =>
    intro l2 h
    cases l2 with
    | nil =>
      simp only [List.flatMap_nil, List.flatMap_cons] at h
      exact absurd (List.append_eq_nil.mp h).1 (utf8Char_ne_nil c.toNat)
    | cons d u =>
      simp only [List.flatMap_cons] at h
      obtain ⟨hcd, hrest⟩ := utf8Char_prefix (char_toNat_lt c) (char_toNat_lt d) h
      have hcd' : c = d := Char.ext (UInt32.ext hcd)
      subst hcd'
      rw [ih u hrest]

theorem utf8Bytes_inj {s t : String} (h : utf8Bytes s = utf8Bytes t) : s = t := by
  unfold utf8Bytes at h
  exact String.ext (utf8_flatMap_inj s.data t.data h)

theorem decDigitsAux_lt10 : ∀ n : Nat, ∀ d ∈ decDigitsAux n, d < 10 := by
  intro n
  induction n using Nat.strong_induction_on with
  | _ n ih =>
    intro d hd
    rw [decDigitsAux] at hd
    split at hd
    · simp at hd
    · rename_i hn
      rcases List.mem_cons.mp hd with h | h
      · omega
      · exact ih (n / 10) (Nat.div_lt_self (Nat.pos_of_ne_zero hn) (by omega)) d h

theorem decVal_decDigitsAux : ∀ n : Nat, decVal (decDigitsAux n) = n := by
  intro n
  induction n using Nat.strong_induction_on with
  | _ n ih =>
    rw [decDigitsAux]
    split
    · rename_i hn
      rw [hn]
      rfl
    · rename_i hn
      have hstep : decVal (n % 10 :: decDigitsAux (n / 10)) =
          n % 10 + 10 * decVal (decDigitsAux (n / 10)) := rfl
      rw [hstep, ih (n / 10) (Nat.div_lt_self (Nat.pos_of_ne_zero hn) (by omega))]
      omega

theorem decDigitsAux_inj {a b : Nat} (h : decDigitsAux a = decDigitsAux b) : a = b := by
  have ha := decVal_decDigitsAux a
  rw [h, decVal_decDigitsAux b] at ha
  omega

theorem zero_not_mem_decBytes (n : Nat) : 0 ∉ decBytes n := by
  unfold decBytes
  split
  · simp
  · intro hmem
    simp only [List.mem_map, List.mem_reverse] at hmem
    obtain ⟨d, _, hd⟩ := hmem
    omega

theorem decBytes_inj {a b : Nat} (h : decBytes a = decBytes b) : a = b := by
  unfold decBytes at h
  split at h <;> split at h
  · rename_i ha hb
    omega
  · rename_i ha hb
    exfalso
    rcases hrev : (decDigitsAux b).reverse with _ | ⟨x, t⟩
    · rw [hrev] at h
      simp at h
    · rw [hrev] at h
      simp only [List.map_cons, List.cons.injEq] at h
      obtain ⟨hx, ht⟩ := h
      have htnil : t = [] := by
        rcases t with _ | ⟨y, u⟩
        · rfl
        · simp at ht
      have hdd : decDigitsAux b = [x] := by
        rw [← List.reverse_reverse (decDigitsAux b), hrev, htnil]
        rfl
      have hb0 := decVal_decDigitsAux b
      rw [hdd] at hb0
      have : decVal [x] = x := by
        unfold decVal
        simp
      omega
  · rename_i ha hb
    exfalso
    rcases hrev : (decDigitsAux a).reverse with _ | ⟨x, t⟩
    · rw [hrev] at h
      simp at h
    · rw [hrev] at h
      simp only [List.map_cons, List.cons.injEq] at h
      obtain ⟨hx, ht⟩ := h
      have htnil : t = [] := by
        rcases t with _ | ⟨y, u⟩
        · rfl
        · simp at ht
      have hdd : decDigitsAux a = [x] := by
        rw [← List.reverse_reverse (decDigitsAux a), hrev, htnil]
        rfl
      have ha0 := decVal_decDigitsAux a
      rw [hdd] at ha0
      have : decVal [x] = x := by
        unfold decVal
        simp
      omega
  · rename_i ha hb
    have hmap : (decDigitsAux a).reverse = (decDigitsAux b).reverse :=
      List.map_injective_iff.mpr (fun x y hxy => by omega) h
    exact decDigitsAux_inj (List.reverse_injective hmap)

theorem sep_split : ∀ (d1 : List Nat) {d2 a b : List Nat},
    (∀ x ∈ d1, x ≠ 0) → (∀ x ∈ d2, x ≠ 0) →
    d1 ++ 0 :: a = d2 ++ 0 :: b → d1 = d2 ∧ a = b := by
  intro d1
  induction d1 with
  | nil =>
    intro d2 a b _ h2 heq
    cases d2 with
    | nil => simpa using heq
    | cons y u =>
      simp only [List.nil_append, List.cons_append, List.cons.injEq] at heq
      exact absurd heq.1.symm (h2 y (List.mem_cons_self y u))
  | cons x t ih =>
    intro d2 a b h1 h2 heq
    cases d2 with
    | nil =>
      simp only [List.cons_append, List.nil_append, List.cons.injEq] at heq
      exact absurd heq.1 (h1 x (List.mem_cons_self x t))
    | cons y u =>
      simp only [List.cons_append, List.cons.injEq] at heq
      obtain ⟨hxy, hrest⟩ := heq
      obtain ⟨hd, hab⟩ := ih (fun z hz => h1 z (List.mem_cons_of_mem x hz))
        (fun z hz => h2 z (List.mem_cons_of_mem y hz)) hrest
      exact ⟨by rw [hxy, hd], hab⟩

theorem last_sep {a b d1 d2 : List Nat}
    (h1 : ∀ x ∈ d1, x ≠ 0) (h2 : ∀ x ∈ d2, x ≠ 0)
    (heq : a ++ 0 :: d1 = b ++ 0 :: d2) : a = b ∧ d1 = d2 := by
  have hrev := congrArg List.reverse heq
  simp only [List.reverse_append, List.reverse_cons, List.append_assoc,
    List.singleton_append] at hrev
  obtain ⟨hd, hab⟩ := sep_split d1.reverse
    (fun x hx => h1 x (List.mem_reverse.mp hx))
    (fun x hx => h2 x (List.mem_reverse.mp hx)) hrev
  exact ⟨List.reverse_injective hab, List.reverse_injective hd⟩

/-- C9: the hash input encoding `name-bytes ++ NUL ++ decimal-salt-bytes` is
injective on (name, salt) pairs: the decimal digits contain no NUL, so the
last NUL delimits the name even when the name itself contains NUL characters,
and UTF-8 plus decimal notation are themselves injective. -/
theorem hash_input_injective (name1 : String) (salt1 : Nat) (name2 : String) (salt2 : Nat)
    (h : hashInput name1 salt1 = hashInput name2 salt2) :
    name1 = name2 ∧ salt1 = salt2 := by
  unfold hashInput at h
  obtain ⟨hname, hsalt⟩ := last_sep
    (fun x hx hx0 => zero_not_mem_decBytes salt1 (hx0 ▸ hx))
    (fun x hx hx0 => zero_not_mem_decBytes salt2 (hx0 ▸ hx)) h
  exact ⟨utf8Bytes_inj hname, decBytes_inj hsalt⟩

theorem hash_input_injective_witness :
    "svc" = "svc" ∧ (12 : Nat) = 12 :=
  hash_input_injective "svc" 12 "svc" 12 rfl

end NameToFreePort
